import Mathlib

/-!
Shallow embedding of the dataset consistency engine of the Akhbaar
repository (`scripts/process_dataset.py`), covering the Identifier
Registry, the Collision Resolver (`ensure_unique_ids`) and the Asset
Synchronizer (`process_images`), together with theorems settling the
frozen claims about the natural-language specification.

Modelling conventions:
* a JSON record is a `Record` structure: the fields the code reads or
  writes (`id`, `title`, `summary`, `raw_text`, `image_url`,
  `image_prompt`) are explicit `Option String` fields (`none` models a
  missing key, `some ""` a present-but-empty value, matching Python
  truthiness tests), and all remaining keys live untouched in `extra`;
* the filesystem of image assets is a list of path strings; paths are
  joined with `"/"` (POSIX separator);
* the external capabilities (Pollinations text/image endpoints), the
  random id source (`uuid.uuid4`) and filesystem failures (`OSError`
  on `os.rename`, write errors on image files) are oracle parameters
  of the configuration structures, so every run of the embedded code
  is a pure function of its inputs;
* the unbounded re-draw loop of `ensure_unique_ids` is given explicit
  fuel; exhausting the fuel returns `none`, which models the Python
  loop never terminating;
* Python `str.lower` is modelled by ASCII lowercasing (all identifiers
  produced by `generate_short_id` are ASCII).
-/

/-- ASCII lowercasing of one character (model of Python `str.lower`
on the ASCII identifiers this program manipulates). -/
def lowerChar (c : Char) : Char :=
  if 'A' ≤ c ∧ c ≤ 'Z' then Char.ofNat (c.toNat + 32) else c

/-- ASCII lowercasing of a string. -/
def lowerStr (s : String) : String := ⟨s.data.map lowerChar⟩

/-- Accumulator run of `basename`: keeps the characters seen since the
last `'/'`. -/
def basenameAux : List Char → List Char → List Char
  | acc, [] => acc
  | acc, c :: cs => if c = '/' then basenameAux [] cs else basenameAux (acc ++ [c]) cs

/-- `os.path.basename` with POSIX separators: the part of the path
after the last `'/'`. -/
def basename (s : String) : String := ⟨basenameAux [] s.data⟩

/-- Index of the last `'.'` in a character list, if any. -/
def lastDotIdx (cs : List Char) : Option Nat :=
  ((cs.enum.filter (fun p => p.2 == '.')).getLast?).map Prod.fst

/-- `os.path.splitext(s)[0]` for a path with no directory component
(every call site passes a basename): the extension starts at the last
dot, provided some earlier character is not a dot. -/
def splitextBase (s : String) : String :=
  match lastDotIdx s.data with
  | none => s
  | some i => if (s.data.take i).all (fun c => c == '.') then s else ⟨s.data.take i⟩

/-- Code-point lexicographic comparison of character lists, the order
Python uses to compare `str` values in `list.sort`. -/
def charListLe : List Char → List Char → Bool
  | [], _ => true
  | _ :: _, [] => false
  | a :: as, b :: bs => if a < b then true else if b < a then false else charListLe as bs

/-- Lexicographic `≤` on strings by code points (Python string order). -/
def strLeB (a b : String) : Bool := charListLe a.data b.data

/-- One news record: the JSON keys the code touches are explicit
optional fields, every other key is carried opaquely in `extra`. -/
structure Record where
  id : Option String
  title : Option String
  summary : Option String
  raw_text : Option String
  image_url : Option String
  image_prompt : Option String
  extra : List (String × String)
deriving DecidableEq, Repr

/-- A dataset file as its on-disk JSON content: its path and, when it
parses as a JSON array (`load_json` succeeds and `isinstance(data,
list)` holds), its list of records; `none` models a file skipped as
unparseable. -/
abbrev DFile := String × Option (List Record)

/-- Placeholder record used only for `getD` defaults at lookups that
the Python code performs on keys it has itself inserted. -/
def emptyRecord : Record := ⟨none, none, none, none, none, none, []⟩

/-- `get_image_path(dataset_dir, json_filename, image_id)`:
`os.path.flatten(dataset_dir, 'images', date_folder, image_id + ".png")`
with `date_folder = splitext(basename(json_filename))[0]`. -/
def get_image_path (dataset_dir json_filename image_id : String) : String :=
  dataset_dir ++ "/images/" ++ splitextBase (basename json_filename) ++ "/" ++ image_id ++ ".png"

/-- The identifier registry: lower-cased id, mapped to the occurrences
`(filepath, index)` in insertion order (a Python `defaultdict(list)`
iterated in insertion order). -/
abbrev Registry := List (String × List (String × Nat))

/-- Append an occurrence under a key, preserving insertion order of
keys and of occurrences (Python `defaultdict(list)[k].append(o)`). -/
def regAdd : Registry → String → String × Nat → Registry
  | [], k, o => [(k, [o])]
  | (k1, os) :: rest, k, o =>
      if k1 = k then (k1, os ++ [o]) :: rest else (k1, os) :: regAdd rest k o

/-- Does the registry have this key (`k in id_registry`)? -/
def regHasKey (reg : Registry) (k : String) : Bool := reg.any (fun e => e.1 == k)

/-- Occurrence list under a key. -/
def regGet (reg : Registry) (k : String) : List (String × Nat) :=
  match reg.find? (fun e => e.1 == k) with
  | some e => e.2
  | none => []

/-- Registry of one loaded file appended onto `reg`: every record with
an `'id'` key is registered under its lower-cased id. -/
def registerFile (reg : Registry) (path : String) (data : List Record) : Registry :=
  data.enum.foldl
    (fun r p =>
      match p.2.id with
      | some s => regAdd r (lowerStr s) (path, p.1)
      | none => r)
    reg

/-- Build the identifier registry over the loaded files in glob order
(step 1 of `ensure_unique_ids`). -/
def buildRegistry (loaded : List (String × List Record)) : Registry :=
  loaded.foldl (fun r f => registerFile r f.1 f.2) []

/-- Configuration of the Collision Resolver: dataset root, the random
id source as a stream (`generate_short_id` draws, indexed by how many
draws happened so far), the `os.rename` failure oracle, and fuel
bounding the re-draw loop. -/
structure RCfg where
  datasetDir : String
  gen_short_id : Nat → String
  renameFail : String → String → Bool
  fuel : Nat

/-- In-memory state of a resolver pass: the loaded `file_data_map`,
the set of image files on disk, how many ids were drawn so far, and
the `files_modified` set (as an insertion-ordered list). -/
structure RSt where
  files : List (String × List Record)
  fs : List String
  ctr : Nat
  modified : List String
deriving DecidableEq, Repr

/-- Lookup in the `file_data_map`. -/
def lookupFiles (files : List (String × List Record)) (p : String) : Option (List Record) :=
  match files.find? (fun f => f.1 == p) with
  | some f => some f.2
  | none => none

/-- Replace the content of the (first) entry for `p`. -/
def updFiles (files : List (String × List Record)) (p : String) (d : List Record) :
    List (String × List Record) :=
  match files with
  | [] => []
  | (q, e) :: rest => if q = p then (q, d) :: rest else (q, e) :: updFiles rest p d

/-- The record at `(path, idx)` of a file map, if any. -/
def recAt (files : List (String × List Record)) (p : String) (i : Nat) : Option Record :=
  (lookupFiles files p).bind (fun d => d[i]?)

/-- Add a path to the `files_modified` set. -/
def addMod (m : List String) (p : String) : List String :=
  if p ∈ m then m else m ++ [p]

/-- The re-draw loop of step 3: draw `gen_short_id`, re-draw while the
lower-cased draw is a key of the registry. Freshly minted ids are NOT
added to the registry by the code, so the loop only ever tests against
the original registry. Returns the accepted id and the next draw
index, or `none` when the fuel runs out (loop does not terminate). -/
def drawFresh (cfg : RCfg) (reg : Registry) : Nat → Nat → Option (String × Nat)
  | 0, _ => none
  | fuel + 1, k =>
      let c := cfg.gen_short_id k
      if regHasKey reg (lowerStr c) then drawFresh cfg reg fuel (k + 1) else some (c, k + 1)

/-- Resolution of one non-canonical occurrence (the body of the
`for i in range(1, len(occurrences))` loop of `ensure_unique_ids`):
draw a fresh id, move the image asset when it exists at the old
derived path (rewriting `image_url` only when the move succeeded and
the key is present), and always commit the new id. -/
def fixOccurrence (cfg : RCfg) (reg : Registry) (st : RSt) (occ : String × Nat) : Option RSt :=
  let path := occ.1
  let idx := occ.2
  let data := (lookupFiles st.files path).getD []
  let item := data.getD idx emptyRecord
  let oldId := item.id.getD ""
  match drawFresh cfg reg cfg.fuel st.ctr with
  | none => none
  | some (newId, ctr1) =>
      let oldImg := get_image_path cfg.datasetDir (basename path) oldId
      let newImg := get_image_path cfg.datasetDir (basename path) newId
      if oldImg ∈ st.fs then
        if cfg.renameFail oldImg newImg then
          -- os.rename raised OSError: log and continue, image_url untouched
          some { st with
            files := updFiles st.files path (data.set idx { item with id := some newId }),
            ctr := ctr1,
            modified := addMod st.modified path }
        else
          let item1 :=
            if item.image_url.isSome then
              { item with
                id := some newId,
                image_url := some ("images/" ++ splitextBase (basename path) ++ "/" ++ newId ++ ".png") }
            else { item with id := some newId }
          some { st with
            files := updFiles st.files path (data.set idx item1),
            fs := st.fs.erase oldImg ++ [newImg],
            ctr := ctr1,
            modified := addMod st.modified path }
      else
        some { st with
          files := updFiles st.files path (data.set idx { item with id := some newId }),
          ctr := ctr1,
          modified := addMod st.modified path }

/-- Stable insertion of an occurrence into a list sorted by owning
file basename (ties keep the earlier element first, like Python's
stable `list.sort`). -/
def insOcc (x : String × Nat) : List (String × Nat) → List (String × Nat)
  | [] => [x]
  | y :: ys => if strLeB (basename x.1) (basename y.1) then x :: y :: ys else y :: insOcc x ys

/-- Stable sort of the occurrence list by owning file basename
(`occurrences.sort(key=lambda x: os.path.basename(x[0]))`). -/
def sortOccs : List (String × Nat) → List (String × Nat)
  | [] => []
  | x :: xs => insOcc x (sortOccs xs)

/-- Resolve a list of occurrences in order. -/
def fixOccs (cfg : RCfg) (reg : Registry) : RSt → List (String × Nat) → Option RSt
  | st, [] => some st
  | st, occ :: rest =>
      match fixOccurrence cfg reg st occ with
      | none => none
      | some st1 => fixOccs cfg reg st1 rest

/-- Resolve one duplicate group: sort the occurrences by basename,
keep the first unchanged, reassign all subsequent ones. -/
def fixGroup (cfg : RCfg) (reg : Registry) (st : RSt) (occs : List (String × Nat)) : Option RSt :=
  fixOccs cfg reg st (sortOccs occs).tail

/-- Walk the registry in insertion order, fixing every group with more
than one occurrence (step 2 of `ensure_unique_ids`). -/
def fixAllGroups (cfg : RCfg) (reg : Registry) : RSt → Registry → Option RSt
  | st, [] => some st
  | st, (_, occs) :: rest =>
      if occs.length > 1 then
        match fixGroup cfg reg st occs with
        | none => none
        | some st1 => fixAllGroups cfg reg st1 rest
      else fixAllGroups cfg reg st rest

/-- `ensure_unique_ids`: load every parseable dataset file, build the
registry, fix all duplicate groups, and rewrite every modified file.
Input: the on-disk dataset files (`none` content = unparseable) and
the image filesystem. Output: the on-disk dataset files after the
pass and the final resolver state, or `none` when a re-draw loop
never terminates. `save_json` swallows its own write errors, so file
writes are modelled as succeeding. -/
def ensure_unique_ids (cfg : RCfg) (files : List DFile) (fs0 : List String) :
    Option (List DFile × RSt) :=
  let loaded := files.filterMap (fun f => f.2.map (fun d => (f.1, d)))
  let reg := buildRegistry loaded
  match fixAllGroups cfg reg ⟨loaded, fs0, 0, []⟩ reg with
  | none => none
  | some st =>
      some (files.map (fun f =>
        match f.2 with
        | none => f
        | some _ => (f.1, some ((lookupFiles st.files f.1).getD []))), st)

/-- Error raised by the Asset Synchronizer pass: an uncaught Python
`KeyError` on a required record field (`item['title']`,
`item['summary']`), which aborts the whole run. -/
inductive RunErr where
  | keyError : String → RunErr
deriving DecidableEq, Repr

/-- Configuration of the Asset Synchronizer: dataset root, the two
external capabilities (`generate_image_prompt` as `describe`, the
retrying `generate_image` as `generate`, both collapsed to their
final outcome), the random id source, and the image-write failure
oracle of `save_image_locally`. -/
structure SCfg where
  datasetDir : String
  describe : String → String → Option String
  generate : String → Option String
  gen_short_id : Nat → String
  writeImgFail : String → Bool

/-- State threaded through an Asset Synchronizer pass: the image
filesystem, the number of ids drawn so far, and the trace of dataset
file writes performed (path and content written), in order. -/
structure SyncSt where
  fs : List String
  ctr : Nat
  writes : List (String × List Record)
deriving DecidableEq, Repr

/-- `needs_asset` is the negation of this check: `image_url` present,
truthy, and `os.path.flatten(dataset_dir, image_url)` exists on disk. -/
def imageExistsB (datasetDir : String) (fs : List String) (r : Record) : Bool :=
  match r.image_url with
  | none => false
  | some u => if u = "" then false else decide ((datasetDir ++ "/" ++ u) ∈ fs)

/-- `save_image_locally(image_bytes, filename, output_dir)` with
`output_dir = os.path.flatten(dataset_dir, 'images', base)`: writes the
bytes at the derived path and returns the dataset-root-relative,
forward-slash path (`os.path.relpath(filepath, 'dataset')` with the
process run from the repository root, as `main` arranges), or `None`
when writing raises. -/
def save_image_locally (cfg : SCfg) (fs : List String) (base filename : String) :
    Option String × List String :=
  if cfg.writeImgFail (cfg.datasetDir ++ "/" ++ ("images/" ++ base ++ "/" ++ filename)) then
    (none, fs)
  else
    (some ("images/" ++ base ++ "/" ++ filename),
      fs ++ [cfg.datasetDir ++ "/" ++ ("images/" ++ base ++ "/" ++ filename)])

/-- Step 3 of the per-record loop: `if 'id' not in item or not
item['id']: item['id'] = generate_short_id()` — the freshly drawn id
is taken from the stream with no collision check of any kind. -/
def mintIdIfMissing (cfg : SCfg) (r : Record) (st : SyncSt) : Record × SyncSt :=
  if r.id.getD "" = "" then
    ({ r with id := some (cfg.gen_short_id st.ctr) }, { st with ctr := st.ctr + 1 })
  else (r, st)

/-- The body of the per-record loop of `process_images`: skip when the
referenced image exists; otherwise generate a prompt (`None` or empty
is a skip), generate the image (`None` or empty bytes is a skip),
mint an id when `'id' not in item or not item['id']`, save the image
(failure is a skip, but the minted id stays on the record), and on
success set `image_url` and `image_prompt`. Returns the (possibly
mutated) record, whether it was successfully updated, and the new
state; `item['title']` / `item['summary']` on a record lacking the
key raises and aborts the run. -/
def processRecord (cfg : SCfg) (base : String) (r : Record) (st : SyncSt) :
    Except RunErr (Record × Bool × SyncSt) :=
  if imageExistsB cfg.datasetDir st.fs r then .ok (r, false, st)
  else
    match r.title with
    | none => .error (.keyError "title")
    | some t =>
      match r.summary with
      | none => .error (.keyError "summary")
      | some s =>
        match cfg.describe t s with
        | none => .ok (r, false, st)
        | some p =>
          if p = "" then .ok (r, false, st)
          else
            match cfg.generate p with
            | none => .ok (r, false, st)
            | some bytes =>
              if bytes = "" then .ok (r, false, st)
              else
                match mintIdIfMissing cfg r st with
                | (r1, st1) =>
                  match save_image_locally cfg st1.fs base (r1.id.getD "" ++ ".png") with
                  | (none, _) => .ok (r1, false, st1)
                  | (some url, fs1) =>
                      .ok ({ r1 with image_url := some url, image_prompt := some p }, true,
                        { st1 with fs := fs1 })

/-- The record loop of `process_images` over one file's items,
accumulating the mutated list and the `needs_save` flag. -/
def processRecords (cfg : SCfg) (base : String) :
    List Record → SyncSt → Except RunErr (List Record × Bool × SyncSt)
  | [], st => .ok ([], false, st)
  | r :: rest, st =>
      match processRecord cfg base r st with
      | .error e => .error e
      | .ok (r1, upd, st1) =>
          match processRecords cfg base rest st1 with
          | .error e => .error e
          | .ok (rest1, save, st2) => .ok (r1 :: rest1, upd || save, st2)

/-- One file of the `process_images` loop: skip unparseable files
(`continue`), process the records, and rewrite the file once at the
end when `needs_save` (the write carries every in-memory record
mutation, including ids minted on records whose save failed). The
returned `DFile` is the file's on-disk content after the pass. -/
def processFile (cfg : SCfg) (st : SyncSt) (f : DFile) : Except RunErr (DFile × SyncSt) :=
  match f.2 with
  | none => .ok (f, st)
  | some items =>
      match processRecords cfg (splitextBase (basename f.1)) items st with
      | .error e => .error e
      | .ok (items1, save, st1) =>
          if save then
            .ok ((f.1, some items1), { st1 with writes := st1.writes ++ [(f.1, items1)] })
          else .ok (f, st1)

/-- `process_images`: the Asset Synchronizer pass over the dataset
files in glob order. Returns the on-disk dataset after the pass and
the final state, or the uncaught exception that aborted the run. -/
def process_images (cfg : SCfg) : List DFile → SyncSt → Except RunErr (List DFile × SyncSt)
  | [], st => .ok ([], st)
  | f :: rest, st =>
      match processFile cfg st f with
      | .error e => .error e
      | .ok (f1, st1) =>
          match process_images cfg rest st1 with
          | .error e => .error e
          | .ok (rest1, st2) => .ok (f1 :: rest1, st2)

/-- All identifiers of the on-disk dataset, lower-cased, in file and
record order (records without an id contribute nothing). -/
def allIdsCI (files : List DFile) : List String :=
  (files.map (fun f =>
    match f.2 with
    | none => []
    | some d => d.filterMap (fun r => r.id.map lowerStr))).flatten

/-- The uniqueness invariant: all ids pairwise distinct
case-insensitively, across all files. -/
def AllIdsDistinctCI (files : List DFile) : Prop := (allIdsCI files).Nodup

/-- A dataset whose single file holds three records sharing the id
`"abc"`: two of them must receive fresh identifiers. -/
def tripleDupFiles : List DFile :=
  [("dataset/a.json",
    some [⟨some "abc", some "t", some "s", none, none, none, []⟩,
          ⟨some "abc", some "t", some "s", none, none, none, []⟩,
          ⟨some "abc", some "t", some "s", none, none, none, []⟩])]

/-- A resolver configuration whose random source repeats the same
8-character token on every draw (a possible, if unlikely, behavior of
`uuid.uuid4`), with renames always succeeding. -/
def repeatGenCfg : RCfg := ⟨"dataset", fun _ => "zz11zz22", fun _ _ => false, 5⟩

/-- C1 (code_bug). The claim: after one `ensure_unique_ids` pass all
ids are pairwise distinct case-insensitively, each fresh id being
re-drawn against the registry AND against ids freshly minted earlier
in the same pass. The code only re-draws against the original
registry (`while new_id.lower() in id_registry`) and never records
fresh ids, so when the random source repeats a token the pass itself
creates a duplicate: on `tripleDupFiles` both reassigned records end
with id `"zz11zz22"`. -/
theorem ensure_unique_ids_can_create_duplicate :
    ∃ files1 st, ensure_unique_ids repeatGenCfg tripleDupFiles [] = some (files1, st) ∧
      allIdsCI files1 = ["abc", "zz11zz22", "zz11zz22"] ∧ ¬ AllIdsDistinctCI files1 :=
  ⟨_, _, rfl, rfl, by unfold AllIdsDistinctCI; decide⟩

/-- Asset Synchronizer configuration whose capabilities always
succeed and whose image writes never fail. -/
def allOkSCfg : SCfg :=
  ⟨"dataset", fun _ _ => some "a prompt", fun _ => some "bytes", fun n => lowerStr (toString n), fun _ => false⟩

/-- One dataset file with two records, both lacking an image. -/
def twoPendingFiles : List DFile :=
  [("dataset/f.json",
    some [⟨some "a1", some "t1", some "s1", none, none, none, []⟩,
          ⟨some "b1", some "t2", some "s2", none, none, none, []⟩])]

/-- C2 (corrected), counterexample. The claim: the owning file is
written to disk immediately after each successfully updated record,
not once at the end. In `process_dataset.process_images` both records
of `twoPendingFiles` are successfully updated, yet the write trace of
the pass holds exactly one write of the file, performed after both
updates (its content already carries both), so no write happened
immediately after the first record's update. -/
theorem process_images_batches_file_writes :
    ∃ a b st1,
      process_images allOkSCfg twoPendingFiles ⟨[], 0, []⟩ =
        .ok ([("dataset/f.json", some [a, b])], st1) ∧
      a.image_url = some "images/f/a1.png" ∧
      b.image_url = some "images/f/b1.png" ∧
      st1.writes = [("dataset/f.json", [a, b])] :=
  ⟨_, _, _, rfl, rfl, rfl, rfl⟩

/-- C2 (corrected), amended claim: during an Asset Synchronizer pass
each owning Dataset File is written at most once, at the end of its
processing, and only when at least one of its records was updated;
the single write carries the file's full accumulated record
mutations. -/
theorem mintIdIfMissing_fst_frame (cfg : SCfg) (r : Record) (st : SyncSt) :
    (mintIdIfMissing cfg r st).1.title = r.title ∧
    (mintIdIfMissing cfg r st).1.summary = r.summary ∧
    (mintIdIfMissing cfg r st).1.raw_text = r.raw_text ∧
    (mintIdIfMissing cfg r st).1.image_url = r.image_url ∧
    (mintIdIfMissing cfg r st).1.image_prompt = r.image_prompt ∧
    (mintIdIfMissing cfg r st).1.extra = r.extra := by
  unfold mintIdIfMissing
  split <;> exact ⟨rfl, rfl, rfl, rfl, rfl, rfl⟩

theorem mintIdIfMissing_snd (cfg : SCfg) (r : Record) (st : SyncSt) :
    (mintIdIfMissing cfg r st).2.fs = st.fs ∧ (mintIdIfMissing cfg r st).2.writes = st.writes := by
  unfold mintIdIfMissing
  split <;> exact ⟨rfl, rfl⟩

/-- Every outcome of the per-record step keeps the write trace, only
extends the image filesystem, and never touches the fields outside
`id`, `image_url`, `image_prompt`. -/
theorem processRecord_state (cfg : SCfg) (base : String) (r : Record) (st : SyncSt)
    (r1 : Record) (upd : Bool) (st1 : SyncSt)
    (h : processRecord cfg base r st = .ok (r1, upd, st1)) :
    st1.writes = st.writes ∧ (∃ l, st1.fs = st.fs ++ l) ∧
    r1.title = r.title ∧ r1.summary = r.summary ∧ r1.raw_text = r.raw_text ∧
    r1.extra = r.extra := by
  unfold processRecord at h
  split at h
  · simp only [Except.ok.injEq, Prod.mk.injEq] at h
    obtain ⟨h1, h2, h3⟩ := h
    subst h1; subst h3
    exact ⟨rfl, ⟨[], by simp⟩, rfl, rfl, rfl, rfl⟩
  · split at h
    · exact absurd h (by simp)
    · next t =>
      split at h
      · exact absurd h (by simp)
      · next s =>
        split at h
        · simp only [Except.ok.injEq, Prod.mk.injEq] at h
          obtain ⟨h1, h2, h3⟩ := h
          subst h1; subst h3
          exact ⟨rfl, ⟨[], by simp⟩, rfl, rfl, rfl, rfl⟩
        · next p =>
          split at h
          · simp only [Except.ok.injEq, Prod.mk.injEq] at h
            obtain ⟨h1, h2, h3⟩ := h
            subst h1; subst h3
            exact ⟨rfl, ⟨[], by simp⟩, rfl, rfl, rfl, rfl⟩
          · split at h
            · simp only [Except.ok.injEq, Prod.mk.injEq] at h
              obtain ⟨h1, h2, h3⟩ := h
              subst h1; subst h3
              exact ⟨rfl, ⟨[], by simp⟩, rfl, rfl, rfl, rfl⟩
            · next bytes =>
              split at h
              · simp only [Except.ok.injEq, Prod.mk.injEq] at h
                obtain ⟨h1, h2, h3⟩ := h
                subst h1; subst h3
                exact ⟨rfl, ⟨[], by simp⟩, rfl, rfl, rfl, rfl⟩
              · split at h
                next r2 st2 hm =>
                split at h
                · next fs2 hs =>
                  simp only [Except.ok.injEq, Prod.mk.injEq] at h
                  obtain ⟨h1, h2, h3⟩ := h
                  subst h1; subst h3
                  have hmf := mintIdIfMissing_fst_frame cfg r st
                  have hms := mintIdIfMissing_snd cfg r st
                  rw [hm] at hmf hms
                  have hfs : st2.fs = st.fs := hms.1
                  exact ⟨hms.2, ⟨[], by simp [hfs]⟩, hmf.1, hmf.2.1, hmf.2.2.1, hmf.2.2.2.2.2⟩
                · next url fs1 hs =>
                  simp only [Except.ok.injEq, Prod.mk.injEq] at h
                  obtain ⟨h1, h2, h3⟩ := h
                  subst h1; subst h3
                  have hmf := mintIdIfMissing_fst_frame cfg r st
                  have hms := mintIdIfMissing_snd cfg r st
                  rw [hm] at hmf hms
                  have hfs : st2.fs = st.fs := hms.1
                  unfold save_image_locally at hs
                  split at hs
                  · exact absurd hs (by simp)
                  · simp only [Prod.mk.injEq] at hs
                    refine ⟨hms.2, ⟨[cfg.datasetDir ++ "/" ++ ("images/" ++ base ++ "/" ++ (r2.id.getD "" ++ ".png"))], ?_⟩, hmf.1, hmf.2.1, hmf.2.2.1, hmf.2.2.2.2.2⟩
                    rw [← hs.2, hfs]

/-- Frame relation on records: everything outside `id`, `image_url`
and `image_prompt` agrees. -/
def frameEq (a b : Record) : Prop :=
  a.title = b.title ∧ a.summary = b.summary ∧ a.raw_text = b.raw_text ∧ a.extra = b.extra

/-- Frame relation on optional file contents: unparseable stays
unparseable, parsed contents are pointwise frame-equal (same number
of records, same order). -/
def optFrame : Option (List Record) → Option (List Record) → Prop
  | none, none => True
  | some a, some b => List.Forall₂ frameEq a b
  | _, _ => False

/-- Frame relation on dataset files: same path, frame-equal content. -/
def dfileFrame (x y : DFile) : Prop := x.1 = y.1 ∧ optFrame x.2 y.2

theorem processRecords_state (cfg : SCfg) (base : String) :
    ∀ (items : List Record) (st : SyncSt) (items1 : List Record) (save : Bool) (st1 : SyncSt),
      processRecords cfg base items st = .ok (items1, save, st1) →
      st1.writes = st.writes ∧ (∃ l, st1.fs = st.fs ++ l) ∧ List.Forall₂ frameEq items items1 := by
  intro items
  induction items with
  | nil =>
      intro st items1 save st1 h
      simp only [processRecords, Except.ok.injEq, Prod.mk.injEq] at h
      obtain ⟨h1, h2, h3⟩ := h
      subst h1; subst h3
      exact ⟨rfl, ⟨[], by simp⟩, List.Forall₂.nil⟩
  | cons r rest ih =>
      intro st items1 save st1 h
      unfold processRecords at h
      split at h
      · exact absurd h (by simp)
      · next r2 upd st2 hr =>
        split at h
        · exact absurd h (by simp)
        · next rest1 save2 st3 hr2 =>
          simp only [Except.ok.injEq, Prod.mk.injEq] at h
          obtain ⟨h1, h2, h3⟩ := h
          subst h1; subst h3
          obtain ⟨hw, ⟨l1, hfs⟩, hfr⟩ := ih st2 rest1 save2 st3 hr2
          obtain ⟨hw2, ⟨l0, hfs0⟩, ht, hsm, hraw, hex⟩ :=
            processRecord_state cfg base r st r2 upd st2 hr
          refine ⟨by rw [hw, hw2], ⟨l0 ++ l1, by rw [hfs, hfs0, List.append_assoc]⟩, ?_⟩
          exact List.Forall₂.cons ⟨ht.symm, hsm.symm, hraw.symm, hex.symm⟩ hfr

theorem frameEq_refl (a : Record) : frameEq a a := ⟨rfl, rfl, rfl, rfl⟩

theorem forall2_frameEq_refl : ∀ (l : List Record), List.Forall₂ frameEq l l
  | [] => List.Forall₂.nil
  | a :: as => List.Forall₂.cons (frameEq_refl a) (forall2_frameEq_refl as)

theorem optFrame_refl : ∀ (c : Option (List Record)), optFrame c c
  | none => True.intro
  | some d => forall2_frameEq_refl d

theorem processFile_state (cfg : SCfg) (st : SyncSt) (f f1 : DFile) (st1 : SyncSt)
    (h : processFile cfg st f = .ok (f1, st1)) :
    dfileFrame f f1 ∧ (∃ l, st1.fs = st.fs ++ l) := by
  unfold processFile at h
  split at h
  · simp only [Except.ok.injEq, Prod.mk.injEq] at h
    obtain ⟨h1, h2⟩ := h
    subst h1; subst h2
    exact ⟨⟨rfl, optFrame_refl f.2⟩, ⟨[], by simp⟩⟩
  · next items hitems =>
    split at h
    · exact absurd h (by simp)
    · next items1 save st2 hr =>
      obtain ⟨hw, hfs, hfr⟩ := processRecords_state cfg (splitextBase (basename f.1)) items st
        items1 save st2 hr
      split at h
      · simp only [Except.ok.injEq, Prod.mk.injEq] at h
        obtain ⟨h1, h2⟩ := h
        subst h1; subst h2
        refine ⟨⟨rfl, ?_⟩, hfs⟩
        rw [hitems]
        exact hfr
      · simp only [Except.ok.injEq, Prod.mk.injEq] at h
        obtain ⟨h1, h2⟩ := h
        subst h1; subst h2
        exact ⟨⟨rfl, optFrame_refl f.2⟩, hfs⟩

theorem process_images_state (cfg : SCfg) :
    ∀ (files : List DFile) (st : SyncSt) (files1 : List DFile) (st1 : SyncSt),
      process_images cfg files st = .ok (files1, st1) →
      List.Forall₂ dfileFrame files files1 ∧ (∃ l, st1.fs = st.fs ++ l) := by
  intro files
  induction files with
  | nil =>
      intro st files1 st1 h
      simp only [process_images, Except.ok.injEq, Prod.mk.injEq] at h
      obtain ⟨h1, h2⟩ := h
      subst h1; subst h2
      exact ⟨List.Forall₂.nil, ⟨[], by simp⟩⟩
  | cons f rest ih =>
      intro st files1 st1 h
      unfold process_images at h
      split at h
      · exact absurd h (by simp)
      · next f1 st2 hf =>
        split at h
        · exact absurd h (by simp)
        · next rest1 st3 hr =>
          simp only [Except.ok.injEq, Prod.mk.injEq] at h
          obtain ⟨h1, h2⟩ := h
          subst h1; subst h2
          obtain ⟨hfr1, ⟨l0, hfs0⟩⟩ := processFile_state cfg st f f1 st2 hf
          obtain ⟨hfr2, ⟨l1, hfs1⟩⟩ := ih st2 rest1 st3 hr
          exact ⟨List.Forall₂.cons hfr1 hfr2,
            ⟨l0 ++ l1, by rw [hfs1, hfs0, List.append_assoc]⟩⟩

/-- C2 (corrected), amended claim: during an Asset Synchronizer pass
(`process_dataset.process_images`) each owning Dataset File is
written at most once, at the end of its processing, and only when at
least one of its records was successfully updated; the single write
carries the file's full accumulated record mutations, so an
interruption while a file is being processed loses every update to
that file from the run. -/
theorem processFile_writes_at_most_once (cfg : SCfg) (st : SyncSt) (f f1 : DFile)
    (st1 : SyncSt) (h : processFile cfg st f = .ok (f1, st1)) :
    (st1.writes = st.writes ∧ f1 = f) ∨
      ∃ items1, f1 = (f.1, some items1) ∧ st1.writes = st.writes ++ [(f.1, items1)] := by
  unfold processFile at h
  split at h
  · simp only [Except.ok.injEq, Prod.mk.injEq] at h
    obtain ⟨h1, h2⟩ := h
    subst h1; subst h2
    exact Or.inl ⟨rfl, rfl⟩
  · next items hitems =>
    split at h
    · exact absurd h (by simp)
    · next items1 save st2 hr =>
      have hw : st2.writes = st.writes :=
        (processRecords_state cfg (splitextBase (basename f.1)) items st items1 save st2 hr).1
      split at h
      · simp only [Except.ok.injEq, Prod.mk.injEq] at h
        obtain ⟨h1, h2⟩ := h
        subst h1; subst h2
        exact Or.inr ⟨items1, rfl, by simp [hw]⟩
      · simp only [Except.ok.injEq, Prod.mk.injEq] at h
        obtain ⟨h1, h2⟩ := h
        subst h1; subst h2
        exact Or.inl ⟨hw, rfl⟩

/-- Witness input for `processFile_writes_at_most_once`: the
two-record file of `twoPendingFiles`. -/
def twoPendingFile : DFile :=
  ("dataset/f.json",
    some [⟨some "a1", some "t1", some "s1", none, none, none, []⟩,
          ⟨some "b1", some "t2", some "s2", none, none, none, []⟩])

theorem processFile_writes_at_most_once_witness :
    (((processFile allOkSCfg ⟨[], 0, []⟩ twoPendingFile).toOption.map
        (fun x => x.2.writes.length)) = some 1) ∧
    ∀ f1 st1, processFile allOkSCfg ⟨[], 0, []⟩ twoPendingFile = .ok (f1, st1) →
      (st1.writes = (⟨[], 0, []⟩ : SyncSt).writes ∧ f1 = twoPendingFile) ∨
        ∃ items1, f1 = (twoPendingFile.1, some items1) ∧
          st1.writes = (⟨[], 0, []⟩ : SyncSt).writes ++ [(twoPendingFile.1, items1)] :=
  ⟨rfl, fun f1 st1 h => processFile_writes_at_most_once allOkSCfg ⟨[], 0, []⟩
    twoPendingFile f1 st1 h⟩

/-- Asset Synchronizer configuration whose image write fails exactly
on the path the first record of `mintLeakFiles` will be saved to. -/
def saveFailCfg : SCfg :=
  ⟨"dataset", fun _ _ => some "a prompt", fun _ => some "bytes", fun _ => "m0",
    fun p => p == "dataset/images/f/m0.png"⟩

/-- A file whose first record has no id (and no image) and whose
second record is a normal pending record. -/
def mintLeakFiles : List DFile :=
  [("dataset/f.json",
    some [⟨none, some "t1", some "s1", none, none, none, []⟩,
          ⟨some "b1", some "t2", some "s2", none, none, none, []⟩])]

/-- C3 (corrected), counterexample. The claim: a record for which any
step fails is never persisted with any mutation — on-disk `id`,
`image_url`, `image_prompt` equal their pre-pass values. Here the
first record's image save fails (so the record counts as failed and
keeps `image_url := none`), but the id `"m0"` minted just before the
failed save stays on the in-memory record, and the successful second
record triggers the file write: the failed record is persisted with
`id = some "m0"` although it started with no id. -/
theorem process_images_persists_failed_mint :
    ∃ a b st1, process_images saveFailCfg mintLeakFiles ⟨[], 0, []⟩ =
        .ok ([("dataset/f.json", some [a, b])], st1) ∧
      a.id = some "m0" ∧ a.image_url = none ∧ a.image_prompt = none ∧
      st1.writes = [("dataset/f.json", [a, b])] :=
  ⟨_, _, _, rfl, rfl, rfl, rfl, rfl⟩

/-- C3 (corrected), amended claim: when prompt or image generation
fails the visited record is left completely unchanged; when the image
save fails, the record's `image_url` and `image_prompt` are
unchanged, but a record that lacked a truthy id keeps the id minted
just before the failed save (and that mutation reaches disk whenever
another record of the same file is successfully updated). -/
theorem processRecord_failure_mutates_at_most_id (cfg : SCfg) (base : String) (r : Record)
    (st : SyncSt) (r1 : Record) (st1 : SyncSt)
    (h : processRecord cfg base r st = .ok (r1, false, st1)) :
    r1.image_url = r.image_url ∧ r1.image_prompt = r.image_prompt ∧
      (r1 = r ∨ (r.id.getD "" = "" ∧ r1 = { r with id := some (cfg.gen_short_id st.ctr) })) := by
  unfold processRecord at h
  split at h
  · simp only [Except.ok.injEq, Prod.mk.injEq] at h
    obtain ⟨h1, h2, h3⟩ := h
    subst h1
    exact ⟨rfl, rfl, Or.inl rfl⟩
  · split at h
    · exact absurd h (by simp)
    · split at h
      · exact absurd h (by simp)
      · split at h
        · simp only [Except.ok.injEq, Prod.mk.injEq] at h
          obtain ⟨h1, h2, h3⟩ := h
          subst h1
          exact ⟨rfl, rfl, Or.inl rfl⟩
        · split at h
          · simp only [Except.ok.injEq, Prod.mk.injEq] at h
            obtain ⟨h1, h2, h3⟩ := h
            subst h1
            exact ⟨rfl, rfl, Or.inl rfl⟩
          · split at h
            · simp only [Except.ok.injEq, Prod.mk.injEq] at h
              obtain ⟨h1, h2, h3⟩ := h
              subst h1
              exact ⟨rfl, rfl, Or.inl rfl⟩
            · split at h
              · simp only [Except.ok.injEq, Prod.mk.injEq] at h
                obtain ⟨h1, h2, h3⟩ := h
                subst h1
                exact ⟨rfl, rfl, Or.inl rfl⟩
              · split at h
                next r2 st2 hm =>
                split at h
                · simp only [Except.ok.injEq, Prod.mk.injEq] at h
                  obtain ⟨h1, h2, h3⟩ := h
                  subst h1
                  unfold mintIdIfMissing at hm
                  split at hm
                  · next hid =>
                    simp only [Prod.mk.injEq] at hm
                    exact ⟨by rw [← hm.1], by rw [← hm.1], Or.inr ⟨hid, hm.1.symm⟩⟩
                  · next hid =>
                    simp only [Prod.mk.injEq] at hm
                    exact ⟨by rw [← hm.1], by rw [← hm.1], Or.inl hm.1.symm⟩
                · exact absurd h (by simp)

def leakRec : Record := ⟨none, some "t1", some "s1", none, none, none, []⟩

def leakRecAfter : Record := ⟨some "m0", some "t1", some "s1", none, none, none, []⟩

theorem processRecord_failure_mutates_at_most_id_witness :
    leakRecAfter.image_url = leakRec.image_url ∧
      leakRecAfter.image_prompt = leakRec.image_prompt ∧
      (leakRecAfter = leakRec ∨
        (leakRec.id.getD "" = "" ∧
          leakRecAfter = { leakRec with
            id := some (saveFailCfg.gen_short_id (⟨[], 0, []⟩ : SyncSt).ctr) })) :=
  processRecord_failure_mutates_at_most_id saveFailCfg "f" leakRec ⟨[], 0, []⟩
    leakRecAfter ⟨[], 1, []⟩ rfl

/-- Synchronizer configuration whose random source yields `"b1"`,
colliding case-insensitively with an id already in the dataset. -/
def collideGenCfg : SCfg :=
  ⟨"dataset", fun _ _ => some "a prompt", fun _ => some "bytes", fun _ => "b1", fun _ => false⟩

/-- A file whose first record already holds id `"B1"` (with an
existing image, so it is skipped) and whose second record has no id. -/
def collideFiles : List DFile :=
  [("dataset/f.json",
    some [⟨some "B1", some "t1", some "s1", none, some "images/f/existing.png", none, []⟩,
          ⟨none, some "t2", some "s2", none, none, none, []⟩])]

/-- C4 (corrected), counterexample. The claim: an id minted by the
Asset Synchronizer never collides case-insensitively with any
identifier visible in the in-memory registry of known identifiers.
`process_images` keeps no registry and performs no check at all: with
the random source returning `"b1"`, the minted id collides with the
first record's `"B1"` and the pass ends with a case-insensitive
duplicate. -/
theorem process_images_minted_id_collides :
    ∃ x y st1,
      process_images collideGenCfg collideFiles ⟨["dataset/images/f/existing.png"], 0, []⟩ =
        .ok ([("dataset/f.json", some [x, y])], st1) ∧
      x.id = some "B1" ∧ y.id = some "b1" ∧
      ¬ AllIdsDistinctCI [("dataset/f.json", some [x, y])] :=
  ⟨_, _, _, rfl, rfl, rfl, by unfold AllIdsDistinctCI; decide⟩

/-- C4 (corrected), amended claim: the id the Asset Synchronizer
mints for a record without a truthy id is the next draw of the random
source, unconditionally — no collision check against any registry or
any other identifier is performed. -/
theorem processRecord_mint_unchecked (cfg : SCfg) (base : String) (r : Record)
    (st : SyncSt) (r1 : Record) (upd : Bool) (st1 : SyncSt)
    (h : processRecord cfg base r st = .ok (r1, upd, st1))
    (hid : r.id.getD "" = "")
    (himg : imageExistsB cfg.datasetDir st.fs r = false)
    (t s : String) (ht : r.title = some t) (hs : r.summary = some s)
    (p : String) (hp : cfg.describe t s = some p) (hpne : p ≠ "")
    (b : String) (hb : cfg.generate p = some b) (hbne : b ≠ "") :
    r1.id = some (cfg.gen_short_id st.ctr) := by
  unfold processRecord at h
  simp only [himg, Bool.false_eq_true, if_false, ht, hs, hp, hb, if_neg hpne, if_neg hbne] at h
  unfold mintIdIfMissing at h
  rw [if_pos hid] at h
  split at h
  · simp only [Except.ok.injEq, Prod.mk.injEq] at h
    obtain ⟨h1, h2, h3⟩ := h
    rw [← h1]
  · simp only [Except.ok.injEq, Prod.mk.injEq] at h
    obtain ⟨h1, h2, h3⟩ := h
    rw [← h1]

def noIdRec : Record := ⟨none, some "t2", some "s2", none, none, none, []⟩

def noIdRecAfter : Record :=
  ⟨some "b1", some "t2", some "s2", none, some "images/f/b1.png", some "a prompt", []⟩

theorem processRecord_mint_unchecked_witness :
    noIdRecAfter.id =
      some (collideGenCfg.gen_short_id
        (⟨["dataset/images/f/existing.png"], 0, []⟩ : SyncSt).ctr) :=
  processRecord_mint_unchecked collideGenCfg "f" noIdRec
    ⟨["dataset/images/f/existing.png"], 0, []⟩ noIdRecAfter true
    ⟨["dataset/images/f/existing.png", "dataset/images/f/b1.png"], 1, []⟩ rfl rfl rfl
    "t2" "s2" rfl rfl "a prompt" rfl (by decide) "bytes" rfl (by decide)

/-- A dataset whose first file contains a record lacking the `title`
key (and with no image), followed by a second, perfectly well-formed
file. -/
def abortFiles : List DFile :=
  [("dataset/bad.json", some [⟨some "x1", none, some "s", none, none, none, []⟩]),
   ("dataset/good.json", some [⟨some "y1", some "t", some "s", none, none, none, []⟩])]

/-- C8 (corrected), counterexample. The claim: no per-file or
per-record error aborts the run; only total inability to enumerate
dataset files is a hard error. But `process_images` evaluates
`item['title']` with no guard: a record that needs an asset and lacks
the `title` key raises an uncaught `KeyError`, aborting the whole run
(the second, well-formed file is never processed). -/
theorem process_images_aborts_on_missing_title :
    process_images allOkSCfg abortFiles ⟨[], 0, []⟩ = .error (.keyError "title") := rfl

/-- C8 (corrected), amended claim: unparseable files are skipped and
the run continues; a `describe` capability failure skips just that
record with no mutation; but a visited record that needs an asset and
lacks the `title` key raises an uncaught `KeyError` that aborts the
entire run — so error isolation holds for parse and capability
failures, not for malformed records. -/
theorem process_images_error_isolation (cfg : SCfg) (p : String) (rest : List DFile)
    (st : SyncSt) :
    (process_images cfg ((p, none) :: rest) st =
      (process_images cfg rest st).map (fun x => ((p, none) :: x.1, x.2))) ∧
    (∀ base r t s, r.title = some t → r.summary = some s →
      imageExistsB cfg.datasetDir st.fs r = false → cfg.describe t s = none →
      processRecord cfg base r st = .ok (r, false, st)) ∧
    (∀ base r, imageExistsB cfg.datasetDir st.fs r = false → r.title = none →
      processRecord cfg base r st = .error (.keyError "title")) := by
  refine ⟨?_, ?_, ?_⟩
  · have base_eq : process_images cfg ((p, none) :: rest) st =
        (match process_images cfg rest st with
          | Except.error e => Except.error e
          | Except.ok (rest1, st2) => Except.ok ((p, none) :: rest1, st2)) := rfl
    rw [base_eq]
    cases hx : process_images cfg rest st with
    | error e => rfl
    | ok out => rfl
  · intro base r t s ht hs himg hd
    unfold processRecord
    simp only [himg, Bool.false_eq_true, if_false, ht, hs, hd]
  · intro base r himg ht
    unfold processRecord
    simp only [himg, Bool.false_eq_true, if_false, ht]

theorem process_images_error_isolation_witness :
    processRecord allOkSCfg "bad" ⟨some "x1", none, some "s", none, none, none, []⟩
      ⟨[], 0, []⟩ = .error (.keyError "title") :=
  (process_images_error_isolation allOkSCfg "q" [] ⟨[], 0, []⟩).2.2 "bad"
    ⟨some "x1", none, some "s", none, none, none, []⟩ rfl rfl

theorem lookupFiles_updFiles_self :
    ∀ (files : List (String × List Record)) (p : String) (d : List Record),
      (lookupFiles files p).isSome → lookupFiles (updFiles files p d) p = some d := by
  intro files p d h
  induction files with
  | nil => simp [lookupFiles, List.find?] at h
  | cons f rest ih =>
      obtain ⟨q, e⟩ := f
      unfold updFiles
      by_cases hq : q = p
      · subst hq
        simp [lookupFiles, List.find?_cons_of_pos]
      · rw [if_neg hq]
        have hb : ((q, e).1 == p) = false := by simp [hq]
        unfold lookupFiles at h ⊢
        rw [List.find?_cons_of_neg _ (by simp [hq])] at h ⊢
        have hb2 : ((q, d).1 == p) = false := by simp [hq]
        exact ih h

theorem lookupFiles_updFiles_ne :
    ∀ (files : List (String × List Record)) (p : String) (d : List Record) (q : String),
      q ≠ p → lookupFiles (updFiles files p d) q = lookupFiles files q := by
  intro files p d q hne
  induction files with
  | nil => rfl
  | cons f rest ih =>
      obtain ⟨q1, e⟩ := f
      unfold updFiles
      by_cases hq : q1 = p
      · subst hq
        simp only [eq_self_iff_true, if_true]
        unfold lookupFiles
        have hq1 : ¬ q1 = q := fun hh => hne hh.symm
        rw [List.find?_cons_of_neg _ (by simp [hq1]),
          List.find?_cons_of_neg _ (by simp [hq1])]
      · rw [if_neg hq]
        unfold lookupFiles at ih ⊢
        by_cases hmatch : q1 = q
        · subst hmatch
          rw [List.find?_cons_of_pos _ (by simp), List.find?_cons_of_pos _ (by simp)]
        · rw [List.find?_cons_of_neg _ (by simp [hmatch]),
            List.find?_cons_of_neg _ (by simp [hmatch])]
          exact ih

theorem updFiles_of_missing :
    ∀ (files : List (String × List Record)) (p : String) (d : List Record),
      lookupFiles files p = none → updFiles files p d = files := by
  intro files p d h
  induction files with
  | nil => rfl
  | cons f rest ih =>
      obtain ⟨q, e⟩ := f
      unfold lookupFiles at h ih
      by_cases hq : q = p
      · subst hq
        rw [List.find?_cons_of_pos _ (by simp)] at h
        cases h
      · unfold updFiles
        rw [if_neg hq]
        rw [List.find?_cons_of_neg _ (by simp [hq])] at h
        rw [ih h]

theorem recAt_upd_self (files : List (String × List Record)) (p : String)
    (d : List Record) (idx : Nat) (item1 : Record)
    (hs : (lookupFiles files p).isSome) (hlen : idx < d.length) :
    recAt (updFiles files p (d.set idx item1)) p idx = some item1 := by
  unfold recAt
  rw [lookupFiles_updFiles_self files p (d.set idx item1) hs]
  show (d.set idx item1)[idx]? = some item1
  exact List.getElem?_set_self hlen

/-- C5 (confirmed). For a non-canonical occurrence: the resolver
always continues and always commits the freshly drawn id; when the
asset exists at the old derived path and the move succeeds,
`image_url` (when the key is present) is rewritten to the new derived
dataset-root-relative forward-slash path; when the move fails, or no
asset exists at the old derived path, or the key is absent,
`image_url` is left unchanged. -/
theorem fixOccurrence_spec (cfg : RCfg) (reg : Registry) (st : RSt) (path : String)
    (idx : Nat) (data : List Record) (item : Record) (oldId newId : String) (ctr1 : Nat)
    (hlk : lookupFiles st.files path = some data)
    (hit : data[idx]? = some item)
    (hid : item.id = some oldId)
    (hdraw : drawFresh cfg reg cfg.fuel st.ctr = some (newId, ctr1)) :
    ∃ st1, fixOccurrence cfg reg st (path, idx) = some st1 ∧
      ∃ item1, recAt st1.files path idx = some item1 ∧ item1.id = some newId ∧
        ((get_image_path cfg.datasetDir (basename path) oldId ∈ st.fs ∧
            cfg.renameFail (get_image_path cfg.datasetDir (basename path) oldId)
              (get_image_path cfg.datasetDir (basename path) newId) = false ∧
            item.image_url.isSome = true) →
          item1.image_url =
            some ("images/" ++ splitextBase (basename path) ++ "/" ++ newId ++ ".png")) ∧
        ((get_image_path cfg.datasetDir (basename path) oldId ∉ st.fs ∨
            cfg.renameFail (get_image_path cfg.datasetDir (basename path) oldId)
              (get_image_path cfg.datasetDir (basename path) newId) = true ∨
            item.image_url = none) →
          item1.image_url = item.image_url) := by
  have hlen : idx < data.length := (List.getElem?_eq_some.mp hit).1
  have hsome : (lookupFiles st.files path).isSome = true := by rw [hlk]; rfl
  have hgetD : (lookupFiles st.files path).getD [] = data := by rw [hlk]; rfl
  have hitD : data.getD idx emptyRecord = item := by
    rw [List.getD_eq_getElem?_getD, hit]; rfl
  have hidD : item.id.getD "" = oldId := by rw [hid]; rfl
  unfold fixOccurrence
  simp only [hgetD, hitD, hidD, hdraw]
  by_cases hmem : get_image_path cfg.datasetDir (basename path) oldId ∈ st.fs
  · by_cases hrn : cfg.renameFail (get_image_path cfg.datasetDir (basename path) oldId)
        (get_image_path cfg.datasetDir (basename path) newId) = true
    · refine ⟨_, by rw [if_pos hmem, if_pos hrn], { item with id := some newId },
        recAt_upd_self st.files path data idx _ hsome hlen, rfl, ?_, ?_⟩
      · intro h3
        exact absurd h3.2.1 (by simp [hrn])
      · intro h4
        rfl
    · by_cases hurl : item.image_url.isSome = true
      · refine ⟨_, by rw [if_pos hmem, if_neg hrn, if_pos hurl],
          { item with
            id := some newId,
            image_url := some ("images/" ++ splitextBase (basename path) ++ "/" ++ newId ++ ".png") },
          recAt_upd_self st.files path data idx _ hsome hlen, rfl, ?_, ?_⟩
        · intro h3
          rfl
        · intro h4
          rcases h4 with h4 | h4 | h4
          · exact absurd hmem h4
          · exact absurd h4 hrn
          · rw [h4] at hurl
            cases hurl
      · refine ⟨_, by rw [if_pos hmem, if_neg hrn, if_neg hurl], { item with id := some newId },
          recAt_upd_self st.files path data idx _ hsome hlen, rfl, ?_, ?_⟩
        · intro h3
          exact absurd h3.2.2 hurl
        · intro h4
          rfl
  · refine ⟨_, by rw [if_neg hmem], { item with id := some newId },
      recAt_upd_self st.files path data idx _ hsome hlen, rfl, ?_, ?_⟩
    · intro h3
      exact absurd h3.1 hmem
    · intro h4
      rfl

theorem charListLe_refl : ∀ (a : List Char), charListLe a a = true
  | [] => rfl
  | x :: xs => by
      unfold charListLe
      rw [if_neg (lt_irrefl x), if_neg (lt_irrefl x)]
      exact charListLe_refl xs

theorem charListLe_total : ∀ (a b : List Char),
    charListLe a b = true ∨ charListLe b a = true
  | [], _ => Or.inl rfl
  | _ :: _, [] => Or.inr rfl
  | x :: xs, y :: ys => by
      unfold charListLe
      rcases lt_trichotomy x y with h | h | h
      · left
        rw [if_pos h]
      · subst h
        simp only [if_neg (lt_irrefl x)]
        exact charListLe_total xs ys
      · right
        rw [if_pos h]

theorem charListLe_trans : ∀ (a b c : List Char), charListLe a b = true →
    charListLe b c = true → charListLe a c = true
  | [], _, _, _, _ => rfl
  | _ :: _, [], _, hab, _ => by cases hab
  | _ :: _, _ :: _, [], _, hbc => by cases hbc
  | x :: xs, y :: ys, z :: zs, hab, hbc => by
      unfold charListLe at hab hbc ⊢
      by_cases hxy : x < y
      · by_cases hyz : y < z
        · rw [if_pos (lt_trans hxy hyz)]
        · by_cases hzy : z < y
          · rw [if_neg hyz, if_pos hzy] at hbc
            cases hbc
          · have hyeq : y = z := le_antisymm (not_lt.mp hzy) (not_lt.mp hyz)
            rw [if_pos (hyeq ▸ hxy)]
      · by_cases hyx : y < x
        · rw [if_neg hxy, if_pos hyx] at hab
          cases hab
        · have hxeq : x = y := le_antisymm (not_lt.mp hyx) (not_lt.mp hxy)
          subst hxeq
          rw [if_neg (lt_irrefl x), if_neg (lt_irrefl x)] at hab
          by_cases hyz : x < z
          · rw [if_pos hyz]
          · by_cases hzy : z < x
            · rw [if_neg hyz, if_pos hzy] at hbc
              cases hbc
            · rw [if_neg hyz, if_neg hzy] at hbc ⊢
              exact charListLe_trans xs ys zs hab hbc

/-- The basename order used by the resolver's sort. -/
def occLe (a b : String × Nat) : Prop := strLeB (basename a.1) (basename b.1) = true

theorem occLe_refl (a : String × Nat) : occLe a a := charListLe_refl _

theorem occLe_total (a b : String × Nat) : occLe a b ∨ occLe b a := charListLe_total _ _

theorem occLe_trans {a b c : String × Nat} (h1 : occLe a b) (h2 : occLe b c) : occLe a c :=
  charListLe_trans _ _ _ h1 h2

theorem mem_insOcc (x : String × Nat) :
    ∀ (l : List (String × Nat)) (z : String × Nat), z ∈ insOcc x l ↔ z = x ∨ z ∈ l := by
  intro l
  induction l with
  | nil => intro z; simp [insOcc]
  | cons y ys ih =>
      intro z
      unfold insOcc
      split
      · simp [List.mem_cons]
      · simp only [List.mem_cons, ih]
        tauto

theorem insOcc_perm (x : String × Nat) :
    ∀ (l : List (String × Nat)), List.Perm (insOcc x l) (x :: l) := by
  intro l
  induction l with
  | nil => exact List.Perm.refl _
  | cons y ys ih =>
      unfold insOcc
      split
      · exact List.Perm.refl _
      · exact List.Perm.trans (List.Perm.cons y ih) (List.Perm.swap x y ys)

theorem sortOccs_perm : ∀ (l : List (String × Nat)), List.Perm (sortOccs l) l
  | [] => List.Perm.refl _
  | x :: xs => List.Perm.trans (insOcc_perm x (sortOccs xs)) (List.Perm.cons x (sortOccs_perm xs))

theorem insOcc_sorted (x : String × Nat) :
    ∀ (l : List (String × Nat)), l.Pairwise occLe → (insOcc x l).Pairwise occLe := by
  intro l
  induction l with
  | nil => intro _; exact List.pairwise_singleton occLe x
  | cons y ys ih =>
      intro hl
      unfold insOcc
      split
      · next hxy =>
        refine List.Pairwise.cons ?_ hl
        intro z hz
        rcases List.mem_cons.mp hz with rfl | hz2
        · exact hxy
        · exact occLe_trans hxy (List.rel_of_pairwise_cons hl hz2)
      · next hxy =>
        have hyx : occLe y x := by
          rcases occLe_total x y with h | h
          · exact absurd h hxy
          · exact h
        refine List.Pairwise.cons ?_ (ih (List.Pairwise.sublist (List.sublist_cons_self y ys) hl))
        intro z hz
        rcases (mem_insOcc x (ys) z).mp hz with rfl | hz2
        · exact hyx
        · exact List.rel_of_pairwise_cons hl hz2

theorem sortOccs_sorted : ∀ (l : List (String × Nat)), (sortOccs l).Pairwise occLe
  | [] => List.Pairwise.nil
  | x :: xs => insOcc_sorted x (sortOccs xs) (sortOccs_sorted xs)

theorem sortOccs_head_min (l : List (String × Nat)) (c : String × Nat)
    (rest : List (String × Nat)) (hsort : sortOccs l = c :: rest) :
    ∀ o ∈ l, occLe c o := by
  intro o ho
  have hmem : o ∈ sortOccs l := ((sortOccs_perm l).mem_iff).mpr ho
  rw [hsort] at hmem
  rcases List.mem_cons.mp hmem with rfl | hmem2
  · exact occLe_refl o
  · have hs := sortOccs_sorted l
    rw [hsort] at hs
    exact List.rel_of_pairwise_cons hs hmem2

theorem recAt_upd_frame (files : List (String × List Record)) (p : String) (idx : Nat)
    (item1 : Record) (q : String) (j : Nat) (hne : ¬(q = p ∧ j = idx)) :
    recAt (updFiles files p (((lookupFiles files p).getD []).set idx item1)) q j =
      recAt files q j := by
  by_cases hq : q = p
  · subst hq
    cases hlk : lookupFiles files q with
    | none => rw [updFiles_of_missing files q _ hlk]
    | some d =>
        have hs : (lookupFiles files q).isSome = true := by rw [hlk]; rfl
        have hj : idx ≠ j := fun hh => hne ⟨rfl, hh.symm⟩
        unfold recAt
        rw [lookupFiles_updFiles_self files q _ hs, hlk]
        show (((some d : Option (List Record)).getD []).set idx item1)[j]? = d[j]?
        exact List.getElem?_set_ne hj
  · unfold recAt
    rw [lookupFiles_updFiles_ne files p _ q hq]

theorem fixOccurrence_frame (cfg : RCfg) (reg : Registry) (st st1 : RSt)
    (path : String) (idx : Nat)
    (h : fixOccurrence cfg reg st (path, idx) = some st1)
    (q : String) (j : Nat) (hne : ¬(q = path ∧ j = idx)) :
    recAt st1.files q j = recAt st.files q j := by
  unfold fixOccurrence at h
  split at h
  · exact absurd h (by simp)
  · dsimp only at h
    split at h
    · split at h
      · simp only [Option.some.injEq] at h
        subst h
        exact recAt_upd_frame _ _ _ _ _ _ hne
      · simp only [Option.some.injEq] at h
        subst h
        exact recAt_upd_frame _ _ _ _ _ _ hne
    · simp only [Option.some.injEq] at h
      subst h
      exact recAt_upd_frame _ _ _ _ _ _ hne

theorem fixOccs_frame (cfg : RCfg) (reg : Registry) :
    ∀ (occs : List (String × Nat)) (st st1 : RSt),
      fixOccs cfg reg st occs = some st1 →
      ∀ q j, (q, j) ∉ occs → recAt st1.files q j = recAt st.files q j := by
  intro occs
  induction occs with
  | nil =>
      intro st st1 h q j _
      simp only [fixOccs, Option.some.injEq] at h
      subst h
      rfl
  | cons occ rest ih =>
      intro st st1 h q j hnot
      unfold fixOccs at h
      split at h
      · exact absurd h (by simp)
      · next st2 hocc =>
        have hnot1 : (q, j) ≠ occ := fun hh => hnot (hh ▸ List.mem_cons_self occ rest)
        have hnot2 : (q, j) ∉ rest := fun hh => hnot (List.mem_cons_of_mem occ hh)
        obtain ⟨p0, i0⟩ := occ
        have hne : ¬(q = p0 ∧ j = i0) := by
          intro ⟨hq, hj⟩
          exact hnot1 (by rw [hq, hj])
        rw [ih st2 st1 h q j hnot2]
        exact fixOccurrence_frame cfg reg st st2 p0 i0 hocc q j hne

/-- C6 (confirmed). For every identifier with more than one
occurrence, the resolver orders the occurrences by owning-file
basename ascending (code-point order, stable), keeps the first
occurrence of that order completely unchanged — its basename is
lexicographically minimal among the occurrences — and touches only
the subsequent occurrences of the sorted list. -/
theorem fixGroup_spec (cfg : RCfg) (reg : Registry) (st st1 : RSt)
    (occs : List (String × Nat)) (c : String × Nat) (rest : List (String × Nat))
    (hsort : sortOccs occs = c :: rest)
    (hnd : occs.Nodup)
    (h : fixGroup cfg reg st occs = some st1) :
    (sortOccs occs).Pairwise occLe ∧
    (∀ o ∈ occs, occLe c o) ∧
    recAt st1.files c.1 c.2 = recAt st.files c.1 c.2 ∧
    (∀ q j, (q, j) ∉ rest → recAt st1.files q j = recAt st.files q j) := by
  have hframe : ∀ q j, (q, j) ∉ rest → recAt st1.files q j = recAt st.files q j := by
    intro q j hnotr
    unfold fixGroup at h
    rw [hsort] at h
    exact fixOccs_frame cfg reg rest st st1 h q j hnotr
  refine ⟨sortOccs_sorted occs, sortOccs_head_min occs c rest hsort, ?_, hframe⟩
  have hnd2 : (c :: rest).Nodup := hsort ▸ ((sortOccs_perm occs).symm.nodup hnd)
  have hcnot : c ∉ rest := (List.nodup_cons.mp hnd2).1
  have : (c.1, c.2) ∉ rest := by
    intro hmem
    exact hcnot (by simpa using hmem)
  exact hframe c.1 c.2 this

def resolverWCfg : RCfg := ⟨"dataset", fun _ => "fresh001", fun _ _ => false, 3⟩

def resolverWReg : Registry := [("abc", [("dataset/a.json", 0), ("dataset/b.json", 0)])]

def resolverWRec : Record := ⟨some "abc", some "t", some "s", none, some "images/b/abc.png", none, []⟩

def resolverWSt : RSt := ⟨[("dataset/b.json", [resolverWRec])], ["dataset/images/b/abc.png"], 0, []⟩

theorem fixOccurrence_spec_witness :
    ∃ st1, fixOccurrence resolverWCfg resolverWReg resolverWSt ("dataset/b.json", 0) = some st1 ∧
      ∃ item1, recAt st1.files "dataset/b.json" 0 = some item1 ∧ item1.id = some "fresh001" ∧
        ((get_image_path resolverWCfg.datasetDir (basename "dataset/b.json") "abc" ∈ resolverWSt.fs ∧
            resolverWCfg.renameFail
              (get_image_path resolverWCfg.datasetDir (basename "dataset/b.json") "abc")
              (get_image_path resolverWCfg.datasetDir (basename "dataset/b.json") "fresh001") = false ∧
            resolverWRec.image_url.isSome = true) →
          item1.image_url =
            some ("images/" ++ splitextBase (basename "dataset/b.json") ++ "/" ++ "fresh001" ++ ".png")) ∧
        ((get_image_path resolverWCfg.datasetDir (basename "dataset/b.json") "abc" ∉ resolverWSt.fs ∨
            resolverWCfg.renameFail
              (get_image_path resolverWCfg.datasetDir (basename "dataset/b.json") "abc")
              (get_image_path resolverWCfg.datasetDir (basename "dataset/b.json") "fresh001") = true ∨
            resolverWRec.image_url = none) →
          item1.image_url = resolverWRec.image_url) :=
  fixOccurrence_spec resolverWCfg resolverWReg resolverWSt "dataset/b.json" 0
    [resolverWRec] resolverWRec "abc" "fresh001" 1 rfl rfl rfl rfl

def recACanon : Record := ⟨some "abc", some "ta", some "sa", none, none, none, []⟩

def resolverW2St : RSt :=
  ⟨[("dataset/a.json", [recACanon]), ("dataset/b.json", [resolverWRec])],
    ["dataset/images/b/abc.png"], 0, []⟩

def resolverW2St1 : RSt :=
  ⟨[("dataset/a.json", [recACanon]),
    ("dataset/b.json",
      [⟨some "fresh001", some "t", some "s", none, some "images/b/fresh001.png", none, []⟩])],
    ["dataset/images/b/fresh001.png"], 1, ["dataset/b.json"]⟩

def groupWOccs : List (String × Nat) := [("dataset/b.json", 0), ("dataset/a.json", 0)]

theorem fixGroup_spec_witness :
    (sortOccs groupWOccs).Pairwise occLe ∧
    (∀ o ∈ groupWOccs, occLe ("dataset/a.json", 0) o) ∧
    recAt resolverW2St1.files "dataset/a.json" 0 = recAt resolverW2St.files "dataset/a.json" 0 ∧
    (∀ q j, (q, j) ∉ [("dataset/b.json", 0)] →
      recAt resolverW2St1.files q j = recAt resolverW2St.files q j) :=
  fixGroup_spec resolverWCfg resolverWReg resolverW2St resolverW2St1 groupWOccs
    ("dataset/a.json", 0) [("dataset/b.json", 0)] rfl (by decide) rfl

theorem images_url_ne_empty (base fname : String) :
    ("images/" ++ base ++ "/" ++ fname) ≠ "" := by
  intro hh
  have hlen := congrArg String.length hh
  rw [String.length_append, String.length_append, String.length_append] at hlen
  have h7 : "images/".length = 7 := rfl
  have h1 : "/".length = 1 := rfl
  have h0 : "".length = 0 := rfl
  rw [h7, h1, h0] at hlen
  omega

theorem imageExistsB_mono (dd : String) (fs l : List String) (r : Record)
    (h : imageExistsB dd fs r = true) : imageExistsB dd (fs ++ l) r = true := by
  unfold imageExistsB at h ⊢
  cases hu : r.image_url with
  | none =>
      simp only [hu] at h
      exact Bool.noConfusion h
  | some u =>
      simp only [hu] at h ⊢
      by_cases he : u = ""
      · rw [if_pos he] at h
        cases h
      · rw [if_neg he] at h ⊢
        simp only [decide_eq_true_eq] at h ⊢
        exact List.mem_append_left l h

/-- A record whose gate check succeeds is returned untouched, with no
capability invoked and no state change. -/
theorem processRecord_skip (cfg : SCfg) (base : String) (r : Record) (st : SyncSt)
    (hgate : imageExistsB cfg.datasetDir st.fs r = true) :
    processRecord cfg base r st = .ok (r, false, st) := by
  unfold processRecord
  rw [if_pos hgate]

theorem processRecord_all_success (cfg : SCfg) (base : String) (r : Record) (st : SyncSt)
    (r1 : Record) (upd : Bool) (st1 : SyncSt)
    (hdesc : ∀ t s, cfg.describe t s ≠ none ∧ cfg.describe t s ≠ some "")
    (hgen : ∀ p, cfg.generate p ≠ none ∧ cfg.generate p ≠ some "")
    (hsave : ∀ q, cfg.writeImgFail q = false)
    (h : processRecord cfg base r st = .ok (r1, upd, st1)) :
    imageExistsB cfg.datasetDir st1.fs r1 = true ∧ (upd = false → r1 = r ∧ st1 = st) := by
  unfold processRecord at h
  split at h
  · next hgate =>
    simp only [Except.ok.injEq, Prod.mk.injEq] at h
    obtain ⟨hr1, hu, hst⟩ := h
    subst hr1; subst hst
    exact ⟨hgate, fun _ => ⟨rfl, rfl⟩⟩
  · split at h
    · exact absurd h (by simp)
    · next t ht =>
      split at h
      · exact absurd h (by simp)
      · next s hs2 =>
        split at h
        · next hd => exact absurd hd (hdesc t s).1
        · next p hp =>
          split at h
          · next hpe =>
            rw [hpe] at hp
            exact absurd hp (hdesc t s).2
          · split at h
            · next hg => exact absurd hg (hgen p).1
            · next b hb =>
              split at h
              · next hbe =>
                rw [hbe] at hb
                exact absurd hb (hgen p).2
              · split at h
                next r2 st2 hm =>
                split at h
                · next fs2 hs =>
                  unfold save_image_locally at hs
                  rw [hsave] at hs
                  simp at hs
                · next url fs1 hs =>
                  unfold save_image_locally at hs
                  rw [hsave] at hs
                  simp only [Bool.false_eq_true, if_false, Prod.mk.injEq, Option.some.injEq] at hs
                  obtain ⟨hurl, hfs⟩ := hs
                  simp only [Except.ok.injEq, Prod.mk.injEq] at h
                  obtain ⟨hr1, hu, hst⟩ := h
                  subst hr1; subst hst
                  constructor
                  · unfold imageExistsB
                    simp only []
                    rw [if_neg (hurl ▸ images_url_ne_empty base (r2.id.getD "" ++ ".png"))]
                    simp only [decide_eq_true_eq]
                    rw [← hurl, ← hfs]
                    exact List.mem_append_right _ (List.mem_singleton.mpr rfl)
                  · intro hfalse
                    exact Bool.noConfusion (hu.trans hfalse)

theorem processRecords_all_success (cfg : SCfg) (base : String)
    (hdesc : ∀ t s, cfg.describe t s ≠ none ∧ cfg.describe t s ≠ some "")
    (hgen : ∀ p, cfg.generate p ≠ none ∧ cfg.generate p ≠ some "")
    (hsave : ∀ q, cfg.writeImgFail q = false) :
    ∀ (items : List Record) (st : SyncSt) (items1 : List Record) (save : Bool) (st1 : SyncSt),
      processRecords cfg base items st = .ok (items1, save, st1) →
      (∀ r1 ∈ items1, imageExistsB cfg.datasetDir st1.fs r1 = true) ∧
      (save = false → items1 = items ∧ st1 = st) := by
  intro items
  induction items with
  | nil =>
      intro st items1 save st1 h
      simp only [processRecords, Except.ok.injEq, Prod.mk.injEq] at h
      obtain ⟨h1, h2, h3⟩ := h
      subst h1; subst h3
      exact ⟨fun r1 hr1 => absurd hr1 (List.not_mem_nil r1), fun _ => ⟨rfl, rfl⟩⟩
  | cons r rest ih =>
      intro st items1 save st1 h
      unfold processRecords at h
      split at h
      · exact absurd h (by simp)
      · next r2 upd st2 hr =>
        split at h
        · exact absurd h (by simp)
        · next rest1 save2 st3 hr2 =>
          simp only [Except.ok.injEq, Prod.mk.injEq] at h
          obtain ⟨h1, h2, h3⟩ := h
          subst h1; subst h3
          obtain ⟨hA1, hB1⟩ := processRecord_all_success cfg base r st r2 upd st2
            hdesc hgen hsave hr
          obtain ⟨hA2, hB2⟩ := ih st2 rest1 save2 st3 hr2
          obtain ⟨l3, hfs3⟩ := (processRecords_state cfg base rest st2 rest1 save2 st3 hr2).2.1
          constructor
          · intro r1 hr1
            rcases List.mem_cons.mp hr1 with rfl | hmem
            · rw [hfs3]
              exact imageExistsB_mono cfg.datasetDir st2.fs l3 r1 hA1
            · exact hA2 r1 hmem
          · intro hsv
            rcases Bool.or_eq_false_iff.mp (h2 ▸ hsv) with ⟨hu, hs2⟩
            obtain ⟨hr2eq, hst2eq⟩ := hB1 hu
            obtain ⟨hrest, hst3⟩ := hB2 hs2
            subst hr2eq
            rw [hrest, hst3, hst2eq]
            exact ⟨rfl, rfl⟩

theorem processFile_all_success (cfg : SCfg) (st : SyncSt) (f f1 : DFile) (st1 : SyncSt)
    (hdesc : ∀ t s, cfg.describe t s ≠ none ∧ cfg.describe t s ≠ some "")
    (hgen : ∀ p, cfg.generate p ≠ none ∧ cfg.generate p ≠ some "")
    (hsave : ∀ q, cfg.writeImgFail q = false)
    (h : processFile cfg st f = .ok (f1, st1)) :
    ∀ items1, f1.2 = some items1 → ∀ r1 ∈ items1, imageExistsB cfg.datasetDir st1.fs r1 = true := by
  unfold processFile at h
  split at h
  · next hnone =>
    simp only [Except.ok.injEq, Prod.mk.injEq] at h
    obtain ⟨h1, h2⟩ := h
    subst h1; subst h2
    intro items1 hitems1
    rw [hnone] at hitems1
    cases hitems1
  · next items hitems =>
    split at h
    · exact absurd h (by simp)
    · next items2 save st2 hr =>
      obtain ⟨hA, hB⟩ := processRecords_all_success cfg (splitextBase (basename f.1))
        hdesc hgen hsave items st items2 save st2 hr
      split at h
      · simp only [Except.ok.injEq, Prod.mk.injEq] at h
        obtain ⟨h1, h2⟩ := h
        subst h1; subst h2
        intro items1 hitems1
        simp only [Option.some.injEq] at hitems1
        subst hitems1
        exact hA
      · next hsv =>
        simp only [Except.ok.injEq, Prod.mk.injEq] at h
        obtain ⟨h1, h2⟩ := h
        subst h1; subst h2
        intro items1 hitems1
        obtain ⟨hitems2, hst2⟩ := hB (Bool.not_eq_true save ▸ hsv)
        rw [hitems] at hitems1
        simp only [Option.some.injEq] at hitems1
        subst hitems1
        rw [← hitems2]
        exact hA

theorem process_images_all_success (cfg : SCfg)
    (hdesc : ∀ t s, cfg.describe t s ≠ none ∧ cfg.describe t s ≠ some "")
    (hgen : ∀ p, cfg.generate p ≠ none ∧ cfg.generate p ≠ some "")
    (hsave : ∀ q, cfg.writeImgFail q = false) :
    ∀ (files : List DFile) (st : SyncSt) (files1 : List DFile) (st1 : SyncSt),
      process_images cfg files st = .ok (files1, st1) →
      ∀ f1 ∈ files1, ∀ items1, f1.2 = some items1 →
        ∀ r1 ∈ items1, imageExistsB cfg.datasetDir st1.fs r1 = true := by
  intro files
  induction files with
  | nil =>
      intro st files1 st1 h
      simp only [process_images, Except.ok.injEq, Prod.mk.injEq] at h
      obtain ⟨h1, h2⟩ := h
      subst h1; subst h2
      intro f1 hf1
      exact absurd hf1 (List.not_mem_nil f1)
  | cons f rest ih =>
      intro st files1 st1 h
      unfold process_images at h
      split at h
      · exact absurd h (by simp)
      · next f2 st2 hf =>
        split at h
        · exact absurd h (by simp)
        · next rest1 st3 hr =>
          simp only [Except.ok.injEq, Prod.mk.injEq] at h
          obtain ⟨h1, h2⟩ := h
          subst h1; subst h2
          obtain ⟨l3, hfs3⟩ := (process_images_state cfg rest st2 rest1 st3 hr).2
          intro f1 hf1 items1 hitems1 r1 hr1
          rcases List.mem_cons.mp hf1 with rfl | hmem
          · have hone := processFile_all_success cfg st f f1 st2 hdesc hgen hsave hf
              items1 hitems1 r1 hr1
            rw [hfs3]
            exact imageExistsB_mono cfg.datasetDir st2.fs l3 r1 hone
          · exact ih st2 rest1 st3 hr f1 hmem items1 hitems1 r1 hr1

theorem processRecords_fixpoint (cfg : SCfg) (base : String) :
    ∀ (items : List Record) (st : SyncSt),
      (∀ r ∈ items, imageExistsB cfg.datasetDir st.fs r = true) →
      processRecords cfg base items st = .ok (items, false, st) := by
  intro items
  induction items with
  | nil => intro st _; rfl
  | cons r rest ih =>
      intro st hall
      have h1 : processRecord cfg base r st = .ok (r, false, st) :=
        processRecord_skip cfg base r st (hall r (List.mem_cons_self r rest))
      have h2 : processRecords cfg base rest st = .ok (rest, false, st) :=
        ih st (fun r2 hr2 => hall r2 (List.mem_cons_of_mem r hr2))
      unfold processRecords
      simp [h1, h2]

theorem processFile_fixpoint (cfg : SCfg) (st : SyncSt) (f : DFile)
    (hall : ∀ items, f.2 = some items →
      ∀ r ∈ items, imageExistsB cfg.datasetDir st.fs r = true) :
    processFile cfg st f = .ok (f, st) := by
  unfold processFile
  cases hc : f.2 with
  | none => rfl
  | some items =>
      simp [processRecords_fixpoint cfg (splitextBase (basename f.1)) items st (hall items hc)]

theorem process_images_fixpoint (cfg : SCfg) :
    ∀ (files : List DFile) (st : SyncSt),
      (∀ f ∈ files, ∀ items, f.2 = some items →
        ∀ r ∈ items, imageExistsB cfg.datasetDir st.fs r = true) →
      process_images cfg files st = .ok (files, st) := by
  intro files
  induction files with
  | nil => intro st _; rfl
  | cons f rest ih =>
      intro st hall
      have h1 : processFile cfg st f = .ok (f, st) :=
        processFile_fixpoint cfg st f (hall f (List.mem_cons_self f rest))
      have h2 : process_images cfg rest st = .ok (rest, st) :=
        ih st (fun f2 hf2 => hall f2 (List.mem_cons_of_mem f hf2))
      unfold process_images
      simp [h1, h2]

/-- C7 (confirmed). A record whose `image_url` is present, non-empty
and refers to an existing file is skipped with no mutation, no
capability call and no state change; and after a fully successful
Asset Synchronizer pass (all capabilities succeed, no write fails),
running the pass again on its output with the same filesystem
performs zero additional writes and changes nothing. -/
theorem process_images_skip_and_idempotent (cfg : SCfg) (files files1 : List DFile)
    (st1 : SyncSt) (fs0 : List String) (c : Nat)
    (hdesc : ∀ t s, cfg.describe t s ≠ none ∧ cfg.describe t s ≠ some "")
    (hgen : ∀ p, cfg.generate p ≠ none ∧ cfg.generate p ≠ some "")
    (hsave : ∀ q, cfg.writeImgFail q = false)
    (h1 : process_images cfg files ⟨fs0, 0, []⟩ = .ok (files1, st1)) :
    (∀ base r st, imageExistsB cfg.datasetDir st.fs r = true →
      processRecord cfg base r st = .ok (r, false, st)) ∧
    process_images cfg files1 ⟨st1.fs, c, []⟩ = .ok (files1, ⟨st1.fs, c, []⟩) := by
  constructor
  · intro base r st hgate
    exact processRecord_skip cfg base r st hgate
  · apply process_images_fixpoint
    intro f hf items hitems r hr
    exact process_images_all_success cfg hdesc hgen hsave files ⟨fs0, 0, []⟩ files1 st1 h1
      f hf items hitems r hr

def c7recA : Record :=
  ⟨some "a1", some "t1", some "s1", none, some "images/f/a1.png", some "a prompt", []⟩

def c7recB : Record :=
  ⟨some "b1", some "t2", some "s2", none, some "images/f/b1.png", some "a prompt", []⟩

def c7files1 : List DFile := [("dataset/f.json", some [c7recA, c7recB])]

def c7st1 : SyncSt :=
  ⟨["dataset/images/f/a1.png", "dataset/images/f/b1.png"], 0,
    [("dataset/f.json", [c7recA, c7recB])]⟩

theorem process_images_skip_and_idempotent_witness :
    (∀ base r st, imageExistsB allOkSCfg.datasetDir st.fs r = true →
      processRecord allOkSCfg base r st = .ok (r, false, st)) ∧
    process_images allOkSCfg c7files1 ⟨c7st1.fs, 0, []⟩ = .ok (c7files1, ⟨c7st1.fs, 0, []⟩) :=
  process_images_skip_and_idempotent allOkSCfg twoPendingFiles c7files1 c7st1 [] 0
    (fun t s => ⟨by simp [allOkSCfg], by simp [allOkSCfg]⟩)
    (fun p => ⟨by simp [allOkSCfg], by simp [allOkSCfg]⟩)
    (fun q => rfl) rfl

theorem frameEq_trans {a b c : Record} (h1 : frameEq a b) (h2 : frameEq b c) : frameEq a c :=
  ⟨h1.1.trans h2.1, h1.2.1.trans h2.2.1, h1.2.2.1.trans h2.2.2.1, h1.2.2.2.trans h2.2.2.2⟩

theorem forall2_frameEq_trans : ∀ (a b c : List Record), List.Forall₂ frameEq a b →
    List.Forall₂ frameEq b c → List.Forall₂ frameEq a c := by
  intro a
  induction a with
  | nil =>
      intro b c h1 h2
      cases h1
      cases h2
      exact List.Forall₂.nil
  | cons x xs ih =>
      intro b c h1 h2
      cases h1 with
      | cons hxy h1t =>
          cases h2 with
          | cons hyz h2t => exact List.Forall₂.cons (frameEq_trans hxy hyz) (ih _ _ h1t h2t)

/-- Frame relation on `file_data_map` entries. -/
def fileFrame (x y : String × List Record) : Prop :=
  x.1 = y.1 ∧ List.Forall₂ frameEq x.2 y.2

/-- Frame relation on whole `file_data_map`s. -/
def filesFrame (a b : List (String × List Record)) : Prop := List.Forall₂ fileFrame a b

theorem filesFrame_refl : ∀ (a : List (String × List Record)), filesFrame a a
  | [] => List.Forall₂.nil
  | x :: xs => List.Forall₂.cons ⟨rfl, forall2_frameEq_refl x.2⟩ (filesFrame_refl xs)

theorem filesFrame_trans : ∀ (a b c : List (String × List Record)),
    filesFrame a b → filesFrame b c → filesFrame a c := by
  intro a
  induction a with
  | nil =>
      intro b c h1 h2
      cases h1
      cases h2
      exact List.Forall₂.nil
  | cons x xs ih =>
      intro b c h1 h2
      cases h1 with
      | cons hxy h1t =>
          cases h2 with
          | cons hyz h2t =>
              exact List.Forall₂.cons
                ⟨hxy.1.trans hyz.1, forall2_frameEq_trans _ _ _ hxy.2 hyz.2⟩
                (ih _ _ h1t h2t)

theorem forall2_frameEq_set : ∀ (d : List Record) (idx : Nat) (item1 : Record),
    frameEq (d.getD idx emptyRecord) item1 → List.Forall₂ frameEq d (d.set idx item1) := by
  intro d
  induction d with
  | nil => intro idx item1 _; exact List.Forall₂.nil
  | cons a as ih =>
      intro idx item1 h
      cases idx with
      | zero => exact List.Forall₂.cons h (forall2_frameEq_refl as)
      | succ n => exact List.Forall₂.cons (frameEq_refl a) (ih n item1 h)

theorem lookupFiles_cons (x : String × List Record) (xs : List (String × List Record))
    (p : String) :
    lookupFiles (x :: xs) p = if x.1 = p then some x.2 else lookupFiles xs p := by
  unfold lookupFiles
  by_cases hq : x.1 = p
  · rw [List.find?_cons_of_pos _ (by simp [hq]), if_pos hq]
  · rw [List.find?_cons_of_neg _ (by simp [hq]), if_neg hq]

theorem updFiles_frame : ∀ (files : List (String × List Record)) (p : String)
    (d2 : List Record),
    (∀ d, lookupFiles files p = some d → List.Forall₂ frameEq d d2) →
    filesFrame files (updFiles files p d2) := by
  intro files
  induction files with
  | nil => intro p d2 _; exact List.Forall₂.nil
  | cons x xs ih =>
      intro p d2 h
      obtain ⟨q, e⟩ := x
      unfold updFiles
      by_cases hq : q = p
      · rw [if_pos hq]
        refine List.Forall₂.cons ⟨rfl, ?_⟩ (filesFrame_refl xs)
        apply h
        rw [lookupFiles_cons, if_pos hq]
      · rw [if_neg hq]
        refine List.Forall₂.cons ⟨rfl, forall2_frameEq_refl e⟩ (ih p d2 ?_)
        intro d hd
        apply h
        rw [lookupFiles_cons, if_neg hq]
        exact hd

theorem fixOccurrence_filesFrame (cfg : RCfg) (reg : Registry) (st st1 : RSt)
    (path : String) (idx : Nat)
    (h : fixOccurrence cfg reg st (path, idx) = some st1) :
    filesFrame st.files st1.files := by
  unfold fixOccurrence at h
  split at h
  · exact absurd h (by simp)
  · dsimp only at h
    split at h
    · split at h
      · simp only [Option.some.injEq] at h
        subst h
        apply updFiles_frame
        intro d hd
        rw [hd]
        apply forall2_frameEq_set
        exact ⟨rfl, rfl, rfl, rfl⟩
      · simp only [Option.some.injEq] at h
        subst h
        apply updFiles_frame
        intro d hd
        rw [hd]
        apply forall2_frameEq_set
        split
        · exact ⟨rfl, rfl, rfl, rfl⟩
        · exact ⟨rfl, rfl, rfl, rfl⟩
    · simp only [Option.some.injEq] at h
      subst h
      apply updFiles_frame
      intro d hd
      rw [hd]
      apply forall2_frameEq_set
      exact ⟨rfl, rfl, rfl, rfl⟩

theorem fixOccs_filesFrame (cfg : RCfg) (reg : Registry) :
    ∀ (occs : List (String × Nat)) (st st1 : RSt),
      fixOccs cfg reg st occs = some st1 → filesFrame st.files st1.files := by
  intro occs
  induction occs with
  | nil =>
      intro st st1 h
      simp only [fixOccs, Option.some.injEq] at h
      subst h
      exact filesFrame_refl st.files
  | cons occ rest ih =>
      intro st st1 h
      unfold fixOccs at h
      split at h
      · exact absurd h (by simp)
      · next st2 hocc =>
        obtain ⟨p0, i0⟩ := occ
        exact filesFrame_trans _ _ _
          (fixOccurrence_filesFrame cfg reg st st2 p0 i0 hocc) (ih st2 st1 h)

theorem fixAllGroups_filesFrame (cfg : RCfg) (reg : Registry) :
    ∀ (groups : Registry) (st st1 : RSt),
      fixAllGroups cfg reg st groups = some st1 → filesFrame st.files st1.files := by
  intro groups
  induction groups with
  | nil =>
      intro st st1 h
      simp only [fixAllGroups, Option.some.injEq] at h
      subst h
      exact filesFrame_refl st.files
  | cons g rest ih =>
      intro st st1 h
      unfold fixAllGroups at h
      split at h
      · split at h
        · exact absurd h (by simp)
        · next st2 hg =>
          unfold fixGroup at hg
          exact filesFrame_trans _ _ _ (fixOccs_filesFrame cfg reg _ st st2 hg) (ih st2 st1 h)
      · exact ih st st1 h

theorem filesFrame_lookup : ∀ (a b : List (String × List Record)), filesFrame a b →
    ∀ (p : String) (d : List Record), lookupFiles a p = some d →
      ∃ e, lookupFiles b p = some e ∧ List.Forall₂ frameEq d e := by
  intro a
  induction a with
  | nil =>
      intro b h p d hd
      simp [lookupFiles, List.find?] at hd
  | cons x xs ih =>
      intro b h p d hd
      cases h with
      | cons hxy ht =>
          next y ys =>
          rw [lookupFiles_cons] at hd
          rw [lookupFiles_cons]
          by_cases hq : x.1 = p
          · rw [if_pos hq] at hd
            simp only [Option.some.injEq] at hd
            rw [if_pos (hxy.1 ▸ hq)]
            exact ⟨y.2, rfl, hd ▸ hxy.2⟩
          · rw [if_neg hq] at hd
            rw [if_neg (hxy.1 ▸ hq)]
            exact ih ys ht p d hd

theorem lookup_loaded : ∀ (files : List DFile) (p : String) (items : List Record),
    (files.map Prod.fst).Nodup → (p, some items) ∈ files →
    lookupFiles (files.filterMap (fun f => f.2.map (fun d => (f.1, d)))) p = some items := by
  intro files
  induction files with
  | nil =>
      intro p items _ hmem
      cases hmem
  | cons f rest ih =>
      intro p items hnd hmem
      obtain ⟨q, c⟩ := f
      rw [List.map_cons] at hnd
      have hnd1 := (List.nodup_cons.mp hnd).1
      have hnd2 := (List.nodup_cons.mp hnd).2
      rcases List.mem_cons.mp hmem with heq | hmem2
      · have hp : p = q := congrArg Prod.fst heq
        have hc : some items = c := congrArg Prod.snd heq
        subst hp
        rw [← hc]
        simp only [List.filterMap_cons]
        show lookupFiles ((p, items) :: rest.filterMap (fun f => Option.map (fun d => (f.1, d)) f.2)) p = some items
        rw [lookupFiles_cons]
        simp
      · have hqp : ¬ q = p := by
          intro hh
          apply hnd1
          rw [hh]
          show p ∈ List.map Prod.fst rest
          exact List.mem_map_of_mem Prod.fst hmem2
        cases c with
        | none =>
            simp only [List.filterMap_cons]
            exact ih p items hnd2 hmem2
        | some d =>
            simp only [List.filterMap_cons]
            show lookupFiles ((q, d) :: rest.filterMap (fun f => Option.map (fun d => (f.1, d)) f.2)) p = some items
            rw [lookupFiles_cons, if_neg hqp]
            exact ih p items hnd2 hmem2

theorem ensure_unique_ids_frame (cfg : RCfg) (files : List DFile) (fs0 : List String)
    (out : List DFile) (st : RSt)
    (hnd : (files.map Prod.fst).Nodup)
    (h : ensure_unique_ids cfg files fs0 = some (out, st)) :
    List.Forall₂ dfileFrame files out := by
  unfold ensure_unique_ids at h
  dsimp only at h
  split at h
  · exact absurd h (by simp)
  · next st2 hfix =>
    simp only [Option.some.injEq, Prod.mk.injEq] at h
    obtain ⟨hout, hst⟩ := h
    subst hst
    rw [← hout]
    have hframe : filesFrame (files.filterMap (fun f => f.2.map (fun d => (f.1, d)))) st2.files :=
      fixAllGroups_filesFrame cfg _ _ _ st2 hfix
    rw [List.forall₂_map_right_iff]
    rw [List.forall₂_same]
    intro f hf
    cases hc : f.2 with
    | none =>
        refine ⟨rfl, ?_⟩
        show optFrame f.2 f.2
        exact optFrame_refl f.2
    | some items =>
        show dfileFrame f (f.1, some ((lookupFiles st2.files f.1).getD []))
        refine ⟨rfl, ?_⟩
        show optFrame f.2 (some ((lookupFiles st2.files f.1).getD []))
        rw [hc]
        have hmem : (f.1, some items) ∈ files := by
          rw [← hc]
          exact hf
        have hlk := lookup_loaded files f.1 items hnd hmem
        obtain ⟨e, he, hfr⟩ := filesFrame_lookup _ _ hframe f.1 items hlk
        rw [he]
        exact hfr

/-- C9 (confirmed). Across the rewrites of both passes — the
Collision Resolver's end-of-pass saves and the Asset Synchronizer's
per-file writes — every Dataset File keeps its path and its exact
record count and order (records mutated in place, never reordered,
added or deleted), and every field of every record other than `id`,
`image_url` and `image_prompt`, including fields unknown to the data
model (`extra`), is preserved unchanged. -/
theorem passes_preserve_order_and_fields (rcfg : RCfg) (scfg : SCfg)
    (rfiles rout sfiles sout : List DFile) (fs0 : List String) (rst : RSt)
    (sst sst1 : SyncSt)
    (hnd : (rfiles.map Prod.fst).Nodup)
    (h1 : ensure_unique_ids rcfg rfiles fs0 = some (rout, rst))
    (h2 : process_images scfg sfiles sst = .ok (sout, sst1)) :
    List.Forall₂ dfileFrame rfiles rout ∧ List.Forall₂ dfileFrame sfiles sout :=
  ⟨ensure_unique_ids_frame rcfg rfiles fs0 rout rst hnd h1,
   (process_images_state scfg sfiles sst sout sst1 h2).1⟩

def tripleRecAbc : Record := ⟨some "abc", some "t", some "s", none, none, none, []⟩

def tripleRecZ : Record := ⟨some "zz11zz22", some "t", some "s", none, none, none, []⟩

def tripleOutFiles : List DFile :=
  [("dataset/a.json", some [tripleRecAbc, tripleRecZ, tripleRecZ])]

def tripleOutSt : RSt :=
  ⟨[("dataset/a.json", [tripleRecAbc, tripleRecZ, tripleRecZ])], [], 2, ["dataset/a.json"]⟩

theorem passes_preserve_order_and_fields_witness :
    List.Forall₂ dfileFrame tripleDupFiles tripleOutFiles ∧
    List.Forall₂ dfileFrame twoPendingFiles c7files1 :=
  passes_preserve_order_and_fields repeatGenCfg allOkSCfg tripleDupFiles tripleOutFiles
    twoPendingFiles c7files1 [] tripleOutSt ⟨[], 0, []⟩ c7st1 (by decide) rfl rfl

/-- A record whose id key is present but holds the empty string. -/
def emptyIdRec : Record := ⟨some "", some "t", some "s", none, none, none, []⟩

/-- Two files, each with one empty-string-id record. -/
def emptyIdFiles : List DFile :=
  [("dataset/a.json", some [emptyIdRec]), ("dataset/b.json", some [emptyIdRec])]

/-- Resolver configuration drawing `"fresh001"`. -/
def emptyIdCfg : RCfg := ⟨"dataset", fun _ => "fresh001", fun _ _ => false, 3⟩

/-- C10 (confirmed). Records whose `id` is present but empty are
treated inconsistently by the two passes: the Identifier Registry
keys them under `""`, so two empty-id records form a collision group
and the resolver keeps one `""` and reassigns the other a fresh id,
whereas the Asset Synchronizer's minting step treats `some ""` like a
missing id and replaces it with the next draw of the random source. -/
theorem emptyId_inconsistent_handling (cfg : SCfg) (r : Record) (st : SyncSt)
    (hid : r.id = some "") :
    buildRegistry [("dataset/a.json", [emptyIdRec]), ("dataset/b.json", [emptyIdRec])] =
      [("", [("dataset/a.json", 0), ("dataset/b.json", 0)])] ∧
    (∃ files1 st1, ensure_unique_ids emptyIdCfg emptyIdFiles [] = some (files1, st1) ∧
      allIdsCI files1 = ["", "fresh001"]) ∧
    (mintIdIfMissing cfg r st).1.id = some (cfg.gen_short_id st.ctr) := by
  refine ⟨rfl, ⟨_, _, rfl, rfl⟩, ?_⟩
  unfold mintIdIfMissing
  rw [if_pos (by rw [hid]; rfl)]

theorem emptyId_inconsistent_handling_witness :
    buildRegistry [("dataset/a.json", [emptyIdRec]), ("dataset/b.json", [emptyIdRec])] =
      [("", [("dataset/a.json", 0), ("dataset/b.json", 0)])] ∧
    (∃ files1 st1, ensure_unique_ids emptyIdCfg emptyIdFiles [] = some (files1, st1) ∧
      allIdsCI files1 = ["", "fresh001"]) ∧
    (mintIdIfMissing allOkSCfg emptyIdRec ⟨[], 0, []⟩).1.id =
      some (allOkSCfg.gen_short_id (⟨[], 0, []⟩ : SyncSt).ctr) :=
  emptyId_inconsistent_handling allOkSCfg emptyIdRec ⟨[], 0, []⟩ rfl
